import Mathlib

/-!
Verification of the Music-Site server (src/server.js).

The development shallowly embeds the pure computational content of the
Express handlers in src/server.js: JavaScript string and number
primitives are modelled on lists of characters, the filesystem is an
explicit association list from absolute paths (component lists) to
nodes, and each handler is a Lean function from its request data and a
filesystem state to a response, a new filesystem state, and a trace of
the filesystem operations it performed.
-/

namespace MusicSite

/-! ## JavaScript string primitives -/

abbrev Chars := List Char

/-- Model of JavaScript String.prototype.split with a single-character
separator: every maximal separator-free run, including empty runs, in
order (so splitting the empty string yields one empty part). -/
def splitOnChar (sep : Char) : Chars → List Chars
  | [] => [[]]
  | c :: cs =>
    match splitOnChar sep cs with
    | [] => [[c]]
    | p :: ps => if c = sep then [] :: p :: ps else (c :: p) :: ps

/-- Model of String.prototype.trim (whitespace stripped at both ends). -/
def jsTrim (cs : Chars) : Chars :=
  ((cs.dropWhile Char.isWhitespace).reverse.dropWhile Char.isWhitespace).reverse

/-- Value of a string of decimal digits. -/
def decValueNat (ds : Chars) : Nat :=
  ds.foldl (fun n c => 10 * n + (c.toNat - Char.toNat '0')) 0

/-- Value of one hexadecimal digit. -/
def hexDigitVal (c : Char) : Nat :=
  if c.isDigit then c.toNat - Char.toNat '0'
  else if ('a' ≤ c ∧ c ≤ 'f') then c.toNat - Char.toNat 'a' + 10
  else c.toNat - Char.toNat 'A' + 10

def isHexDigitChar (c : Char) : Bool :=
  c.isDigit ∨ ('a' ≤ c ∧ c ≤ 'f') ∨ ('A' ≤ c ∧ c ≤ 'F')

def hexValueNat (ds : Chars) : Nat :=
  ds.foldl (fun n c => 16 * n + hexDigitVal c) 0

/-- Model of JavaScript parseInt(s, 10): leading whitespace is skipped,
an optional sign is read, then the longest prefix of decimal digits is
converted; none (NaN) when that prefix is empty. -/
def jsParseInt (cs : Chars) : Option Int :=
  let t := cs.dropWhile Char.isWhitespace
  let signed : Int × Chars :=
    match t with
    | '-' :: r => (-1, r)
    | '+' :: r => (1, r)
    | r => (1, r)
  let digits := signed.2.takeWhile Char.isDigit
  if digits = [] then none
  else some (signed.1 * (decValueNat digits : Int))

/-- Model of JavaScript Number(s) on the grammar exercised by the
server: empty or all-whitespace strings coerce to 0, decimal integer
literals with an optional sign to their value, and 0x/0X hexadecimal
literals to their value; every other string is modelled as NaN
(none).  Fractional, exponent, binary and octal literal forms, which
JavaScript also accepts, are outside the modelled grammar and are not
exercised by any theorem below. -/
def jsNumber (cs : Chars) : Option Int :=
  let t := jsTrim cs
  if t = [] then some 0
  else if t.all Char.isDigit then some (decValueNat t : Int)
  else
    match t with
    | '-' :: r => if r ≠ [] ∧ r.all Char.isDigit then some (-(decValueNat r : Int)) else none
    | '+' :: r => if r ≠ [] ∧ r.all Char.isDigit then some ((decValueNat r : Int)) else none
    | '0' :: 'x' :: r => if r ≠ [] ∧ r.all isHexDigitChar then some ((hexValueNat r : Int)) else none
    | '0' :: 'X' :: r => if r ≠ [] ∧ r.all isHexDigitChar then some ((hexValueNat r : Int)) else none
    | _ => none

/-! ## Network origin classifier (src/server.js lines 105-143) -/

/-- Embeds isPrivateIpv4 (server.js:105): split on dots, coerce each
part with Number, reject unless exactly four parts each in [0, 255],
then test the RFC1918 patterns. -/
def isPrivateIpv4 (ip : String) : Bool :=
  let parts := (splitOnChar '.' ip.toList).map jsNumber
  if parts.length ≠ 4 ∨ parts.any (fun p =>
      match p with
      | none => true
      | some v => v < 0 ∨ 255 < v) then false
  else
    match parts with
    | some a :: some b :: _ =>
      if a = 10 then true
      else if a = 172 ∧ 16 ≤ b ∧ b ≤ 31 then true
      else a = 192 ∧ b = 168
    | _ => false

/-- Embeds isLocalNetworkIp (server.js:119): empty is denied, an
IPv4-mapped prefix ::ffff: is stripped, loopback literals are accepted,
strings containing a colon are accepted iff they start with fc or fd,
and anything else goes through isPrivateIpv4. -/
def isLocalNetworkIp (ip : String) : Bool :=
  if ip = "" then false
  else
    let normalized : Chars :=
      if "::ffff:".toList.isPrefixOf ip.toList then ip.toList.drop 7 else ip.toList
    if normalized = "::1".toList ∨ normalized = "127.0.0.1".toList then true
    else if normalized.contains ':' then
      "fc".toList.isPrefixOf normalized ∨ "fd".toList.isPrefixOf normalized
    else isPrivateIpv4 (String.mk normalized)

/-! ## Spec-side address model for claim C7

Modelled from the spec: the spec speaks of addresses that "lie in" the
RFC1918 ranges, fc00::/7 or loopback, and of "malformed" input; these
definitions formalise well-formed textual IPv4/IPv6 addresses and
membership of the listed ranges, following the spec's words rather than
the code. -/

/-- Spec-side: a syntactically valid dotted-quad IPv4 address: exactly
four non-empty all-digit components, each of value at most 255. -/
def specValidIPv4 (s : String) : Bool :=
  match splitOnChar '.' s.toList with
  | [a, b, c, d] =>
    [a, b, c, d].all fun p => p ≠ [] ∧ p.all Char.isDigit ∧ decValueNat p ≤ 255
  | _ => false

/-- Spec-side: a syntactically valid textual IPv6 address as a list of
colon-separated parts: groups of 1-4 hex digits, eight of them, or
fewer with a single empty-run marking a :: abbreviation.  (IPv4-mapped
tails are treated via the group grammar only; this coarse validator is
used solely to classify strings as well- or mal-formed.) -/
def specValidIPv6Parts (ps : List Chars) : Bool :=
  let isGroup : Chars → Bool := fun g => g ≠ [] ∧ g.length ≤ 4 ∧ g.all isHexDigitChar
  let empties := ps.countP (fun g => g = [])
  if empties = 0 then ps.length = 8 ∧ ps.all isGroup
  else
    -- a :: abbreviation produces consecutive empty parts; accept at
    -- most one run of them (up to three empties when the address
    -- starts or ends with ::), with all remaining parts groups
    (ps.filter (fun g => g ≠ [])).all isGroup ∧ ps.length ≤ 9 ∧
    (ps.filter (fun g => g ≠ [])).length + 1 ≤ 8 ∧ empties ≤ 3
def specValidIPv6 (s : String) : Bool :=
  specValidIPv6Parts (splitOnChar ':' s.toList)

/-- Spec-side: a well-formed textual IP address (IPv4 dotted quad, or
an IPv6 form, which always contains a colon). -/
def specWellFormedIp (s : String) : Bool :=
  specValidIPv4 s ∨ (s.toList.contains ':' ∧ specValidIPv6 s)

/-- Spec-side: RFC1918 membership of a dotted quad by first two octets. -/
def specRfc1918 (a b : Nat) : Bool :=
  a = 10 ∨ (a = 172 ∧ 16 ≤ b ∧ b ≤ 31) ∨ (a = 192 ∧ b = 168)

/-- Spec-side: loopback forms listed by the spec, including the
IPv4-mapped IPv6 loopback. -/
def specIsLoopback (s : String) : Bool :=
  s = "127.0.0.1" ∨ s = "::1" ∨ s = "::ffff:127.0.0.1"

/-- Spec-side: the address lies in one of the ranges the spec lists:
RFC1918 private IPv4, the IPv6 unique-local range fc00::/7 (first
group value in [0xfc00, 0xfdff]), or loopback. -/
def specInLocalRanges (s : String) : Bool :=
  specIsLoopback s ||
  (specValidIPv4 s &&
    match splitOnChar '.' s.toList with
    | a :: b :: _ => specRfc1918 (decValueNat a) (decValueNat b)
    | _ => false) ||
  (specValidIPv6 s &&
    match splitOnChar ':' s.toList with
    | g :: _ =>
      decide (g ≠ [] ∧ 0xfc00 ≤ hexValueNat (g ++ List.replicate (4 - g.length) '0') ∧
        hexValueNat (g ++ List.replicate (4 - g.length) '0') ≤ 0xfdff)
    | _ => false)

/-! ## Path model (posix path.resolve, server.js lines 205, 262-272)

Absolute filesystem paths are modelled as lists of components.  The
string check resolvedPath.startsWith(dir + path.sep) used by the code
corresponds, on the normalized component lists produced by
path.resolve, to the component list of dir being a proper prefix of
that of resolvedPath; inDirStrict embeds the check at that level. -/

/-- One step of posix path normalization: empty components and dots
are dropped, a dot-dot pops the previous component (clamped at the
root, as path.resolve does). -/
def normStep (acc : List String) (c : String) : List String :=
  if c = "" ∨ c = "." then acc
  else if c = ".." then acc.dropLast
  else acc ++ [c]

def normalizeComps (cs : List String) : List String :=
  cs.foldl normStep []

/-- Components of a path string, split on the posix separator. -/
def splitPathComps (s : String) : List String :=
  (splitOnChar '/' s.toList).map List.asString

def isAbsolutePath (s : String) : Bool :=
  match s.toList with
  | '/' :: _ => true
  | _ => false

/-- Embeds path.resolve(base, name) with base an already-normalized
absolute path (as every use in the server has): an absolute name
replaces base, otherwise the name is resolved against it. -/
def jsResolve2 (base : List String) (name : String) : List String :=
  if isAbsolutePath name then normalizeComps (splitPathComps name)
  else normalizeComps (base ++ splitPathComps name)

/-- Embeds resolvedPath.startsWith(root + path.sep) on component
lists: root is a proper prefix of p. -/
def inDirStrict (root p : List String) : Bool :=
  root.isPrefixOf p && decide (root.length < p.length)

/-- Embeds resolveProjectPath (server.js:262): resolve the name under
the music root and throw on any path that does not stay strictly
inside it. -/
def resolveProjectPath (musicDir : List String) (projectName : String) :
    Except String (List String) :=
  let projectPath := jsResolve2 musicDir projectName
  if inDirStrict musicDir projectPath then .ok projectPath
  else .error "Invalid project path"

/-- Embeds toSafeName (server.js:270): trim, then delete every slash
and backslash. -/
def toSafeName (s : String) : String :=
  ((jsTrim s.toList).filter (fun c => ¬ (c = '/' ∨ c = '\\'))).asString

/-- Embeds posix path.basename: everything after the last slash, with
trailing slashes stripped first ("" for the empty string, "/" when
only slashes remain). -/
def jsBasename (s : String) : String :=
  if s = "" then ""
  else
    let t := (s.toList.reverse.dropWhile (fun c => c = '/')).reverse
    if t = [] then "/"
    else ((t.reverse.takeWhile (fun c => ¬ c = '/')).reverse).asString

def isSafeFileChar (c : Char) : Bool :=
  c.isAlpha ∨ c.isDigit ∨ c = '.' ∨ c = '_' ∨ c = '-'

/-- Embeds toSafeFileName (server.js:272): basename, then every
character outside [a-zA-Z0-9._-] replaced by an underscore. -/
def toSafeFileName (s : String) : String :=
  ((jsBasename s).toList.map (fun c => if isSafeFileChar c then c else '_')).asString

/-- Lower-cased-suffix test embedding name.toLowerCase().endsWith(".wav")
(the server only meets ASCII names; Char.toLower agrees with
JavaScript toLowerCase on ASCII). -/
def endsWithWav (name : String) : Bool :=
  ".wav".toList.isSuffixOf (name.toList.map Char.toLower)

/-! ## Range-aware file streamer (server.js lines 201-254) -/

/-- The Content-Range response header, structured: part s e n denotes
the string "bytes s-e/n", unsat n denotes "bytes */n". -/
inductive ContentRange where
  | part (s e n : Int)
  | unsat (n : Int)
deriving DecidableEq, Repr

/-- The observable response of the streaming handler: HTTP status,
Content-Range header when set, Content-Length header when set, and the
bytes streamed in the body (none when none are). -/
structure StreamResp where
  status : Nat
  contentRange : Option ContentRange
  contentLength : Option Int
  body : Option (List Nat)
deriving DecidableEq, Repr

/-- Embeds range.replace(/bytes=/, ""): remove the first occurrence of
the pattern. -/
def removeFirst (pat : Chars) : Chars → Chars
  | [] => []
  | c :: rest =>
    if pat.isPrefixOf (c :: rest) then (c :: rest).drop pat.length
    else c :: removeFirst pat rest

/-- Embeds server.js:225: strip "bytes=", split on dashes. -/
def rangeParts (hdr : Chars) : List Chars :=
  splitOnChar '-' (removeFirst "bytes=".toList hdr)

/-- Embeds server.js:226: parseInt of the first part (none is NaN). -/
def rangeStart (hdr : Chars) : Option Int :=
  jsParseInt ((rangeParts hdr).headD [])

/-- Embeds server.js:227: the second part parsed when present and
truthy (a missing or empty part defaults to fileSize - 1). -/
def rangeEnd (hdr : Chars) (fileSize : Int) : Option Int :=
  match (rangeParts hdr).get? 1 with
  | some es => if es = [] then some (fileSize - 1) else jsParseInt es
  | none => some (fileSize - 1)

/-- The bytes fs.createReadStream(path, \x7bstart, end\x7d) delivers for
0 ≤ start ≤ end < length: offsets start through end inclusive. -/
def sliceBytes (content : List Nat) (s e : Int) : List Nat :=
  (content.drop s.toNat).take (e - s + 1).toNat

/-- Embeds the range branch of the streaming handler (server.js
lines 224-242), given the stat has succeeded on a regular file with
the given content.  NaN or past-the-end bounds give 416 with
Content-Range bytes */size and an empty body.  Otherwise, when the
parsed start exceeds the parsed end, the handler itself performs no
check, but fs.createReadStream(resolvedPath, \x7bstart, end\x7d) at
server.js:241 validates start ≤ end and throws ERR_OUT_OF_RANGE
synchronously; the surrounding catch passes the error to next(error)
and, no header having been flushed yet, the default error handler
answers 500 — the error page's headers and body are abstracted as
absent here, and no file bytes are read.  In the remaining case the
response is 206 with Content-Range bytes start-end/size,
Content-Length end-start+1, and exactly that byte span. -/
def rangeBranch (content : List Nat) (hdr : Chars) : StreamResp :=
  let fileSize : Int := content.length
  match rangeStart hdr, rangeEnd hdr fileSize with
  | some s, some e =>
    if fileSize ≤ s ∨ fileSize ≤ e then
      ⟨416, some (.unsat fileSize), none, none⟩
    else if e < s then
      ⟨500, none, none, none⟩
    else
      ⟨206, some (.part s e fileSize), some (e - s + 1), some (sliceBytes content s e)⟩
  | _, _ => ⟨416, some (.unsat fileSize), none, none⟩

/-! ## Filesystem model

The filesystem is an association list from absolute paths (component
lists) to nodes; handlers additionally return the trace of filesystem
operations they performed, so that confinement to the music root is a
provable property of a run. -/

inductive FsNode where
  | dir
  | file (content : List Nat)
deriving DecidableEq, Repr

abbrev Fs := List (List String × FsNode)

def fsFind (fs : Fs) (p : List String) : Option FsNode :=
  (fs.find? (fun e => e.1 = p)).map (·.2)

def fsExists (fs : Fs) (p : List String) : Bool :=
  (fsFind fs p).isSome

def fsIsDir (fs : Fs) (p : List String) : Bool :=
  fsFind fs p = some .dir

def fsIsFile (fs : Fs) (p : List String) : Bool :=
  match fsFind fs p with
  | some (.file _) => true
  | _ => false

def isFileNode : FsNode → Bool
  | .file _ => true
  | .dir => false

/-- Immediate children of a directory, as (name, node) pairs —
the view fs.promises.readdir(p, withFileTypes) returns. -/
def fsChildren (fs : Fs) (p : List String) : List (String × FsNode) :=
  fs.filterMap fun e =>
    if e.1.length = p.length + 1 ∧ p.isPrefixOf e.1 then
      (e.1.getLast?).map fun n => (n, e.2)
    else none

/-- readdir: the children when p is a directory, a thrown error
(none) otherwise. -/
def fsReaddir (fs : Fs) (p : List String) : Option (List (String × FsNode)) :=
  if fsIsDir fs p then some (fsChildren fs p) else none

/-- rename(src, dst): every entry under src is rebased under dst;
whatever was at dst is replaced. -/
def fsRename (fs : Fs) (src dst : List String) : Fs :=
  fs.filter (fun e => ¬ (src.isPrefixOf e.1 ∨ dst.isPrefixOf e.1)) ++
    fs.filterMap (fun e =>
      if src.isPrefixOf e.1 then some (dst ++ e.1.drop src.length, e.2) else none)

/-- rm(p, recursive, force): p and everything under it disappears. -/
def fsRemoveTree (fs : Fs) (p : List String) : Fs :=
  fs.filter (fun e => ¬ p.isPrefixOf e.1)

/-- Write (create or replace) a file. -/
def fsWrite (fs : Fs) (p : List String) (content : List Nat) : Fs :=
  (p, FsNode.file content) :: fs.filter (fun e => ¬ e.1 = p)

/-- mkdir(p, recursive: true) as used by ensureMusicDir: a no-op
when the directory already exists. -/
def ensureMusicDir (musicDir : List String) (fs : Fs) : Fs :=
  if fsIsDir fs musicDir then fs else (musicDir, FsNode.dir) :: fs

/-- The filesystem operations a handler can perform, with the paths
they touch. -/
inductive FsOp where
  | statOp (p : List String)
  | readdirOp (p : List String)
  | mkdirOp (p : List String)
  | writeOp (p : List String)
  | renameOp (src dst : List String)
  | rmOp (p : List String)
  | unlinkOp (p : List String)
  | readOp (p : List String)
deriving DecidableEq, Repr

def FsOp.paths : FsOp → List (List String)
  | .statOp p => [p]
  | .readdirOp p => [p]
  | .mkdirOp p => [p]
  | .writeOp p => [p]
  | .renameOp s d => [s, d]
  | .rmOp p => [p]
  | .unlinkOp p => [p]
  | .readOp p => [p]

/-- Every path an operation touches lies at or below the root. -/
def opsWithinRoot (root : List String) (ops : List FsOp) : Prop :=
  ∀ op ∈ ops, ∀ p ∈ op.paths, root.isPrefixOf p = true

/-! ## API handlers (server.js lines 201-254 and 384-566)

Each handler returns the HTTP response, the resulting filesystem and
its operation trace.  Request bodies are records of optional strings
(none models a non-string or missing JSON field, which the code
coerces to ""). -/

structure HResp where
  status : Nat
  errMsg : Option String
deriving DecidableEq, Repr

/-- Embeds GET /music/:project/:file (server.js:201): resolve under
the music root, reject escapes with 400, stat (a missing path throws,
reaching the error handler as a 500; a non-file answers 404), then
serve either the range branch or the whole file. -/
def streamFile (musicDir : List String) (projectName fileName : String)
    (rangeHeader : Option String) (fs : Fs) : StreamResp × List FsOp :=
  let resolvedPath := jsResolve2 (jsResolve2 musicDir projectName) fileName
  if ¬ inDirStrict musicDir resolvedPath then
    (⟨400, none, none, none⟩, [])
  else
    match fsFind fs resolvedPath with
    | none => (⟨500, none, none, none⟩, [.statOp resolvedPath])
    | some .dir => (⟨404, none, none, none⟩, [.statOp resolvedPath])
    | some (.file content) =>
      match rangeHeader with
      | some hdr =>
        if ¬ hdr = "" then
          let r := rangeBranch content hdr.toList
          (r, [.statOp resolvedPath] ++ (if r.body = none then [] else [.readOp resolvedPath]))
        else
          -- an empty header string is falsy in the JavaScript if (range)
          (⟨200, none, some (content.length : Int), some content⟩,
            [.statOp resolvedPath, .readOp resolvedPath])
      | none =>
        (⟨200, none, some (content.length : Int), some content⟩,
          [.statOp resolvedPath, .readOp resolvedPath])

/-- Modelled content of the project.json metadata file; its bytes are
never inspected by any handler, so the note text is stored as code
points. -/
def noteBytes (rawNote : String) : List Nat :=
  (jsTrim rawNote.toList).map Char.toNat

/-- Embeds POST /api/projects (server.js:384). -/
def createProject (musicDir : List String) (bodyName bodyNote : Option String)
    (fs : Fs) : HResp × Fs × List FsOp :=
  let fs1 := ensureMusicDir musicDir fs
  let tr0 : List FsOp := [.mkdirOp musicDir]
  let rawName := bodyName.getD ""
  let rawNote := bodyNote.getD ""
  let projectName := toSafeName rawName
  if projectName = "" then (⟨400, some "Project name is required."⟩, fs1, tr0)
  else
    match resolveProjectPath musicDir projectName with
    | .error _ => (⟨500, some "Unable to create project."⟩, fs1, tr0)
    | .ok projectPath =>
      if fsExists fs1 projectPath then
        (⟨409, some "Project already exists."⟩, fs1, tr0 ++ [.mkdirOp projectPath])
      else
        let fs2 := (projectPath, FsNode.dir) :: fs1
        let fs3 := fsWrite fs2 (projectPath ++ ["project.json"]) (noteBytes rawNote)
        (⟨201, none⟩, fs3, tr0 ++ [.mkdirOp projectPath, .writeOp (projectPath ++ ["project.json"])])

/-- Embeds PUT /api/projects/:name (server.js:417). -/
def renameProject (musicDir : List String) (currentName : String)
    (bodyName : Option String) (fs : Fs) : HResp × Fs × List FsOp :=
  let fs1 := ensureMusicDir musicDir fs
  let tr0 : List FsOp := [.mkdirOp musicDir]
  let nextName := toSafeName (bodyName.getD "")
  if nextName = "" then (⟨400, some "Project name is required."⟩, fs1, tr0)
  else
    match resolveProjectPath musicDir currentName with
    | .error _ => (⟨500, some "Unable to rename project."⟩, fs1, tr0)
    | .ok currentPath =>
      match resolveProjectPath musicDir nextName with
      | .error _ => (⟨500, some "Unable to rename project."⟩, fs1, tr0)
      | .ok nextPath =>
        if ¬ fsExists fs1 currentPath then
          (⟨404, some "Project not found."⟩, fs1, tr0 ++ [.statOp currentPath])
        else if fsExists fs1 nextPath then
          (⟨409, some "Project already exists."⟩, fs1, tr0 ++ [.statOp currentPath, .statOp nextPath])
        else
          (⟨200, none⟩, fsRename fs1 currentPath nextPath,
            tr0 ++ [.statOp currentPath, .statOp nextPath, .renameOp currentPath nextPath])

/-- Embeds DELETE /api/projects/:name (server.js:449). -/
def deleteProject (musicDir : List String) (projectName : String)
    (fs : Fs) : HResp × Fs × List FsOp :=
  let fs1 := ensureMusicDir musicDir fs
  let tr0 : List FsOp := [.mkdirOp musicDir]
  match resolveProjectPath musicDir projectName with
  | .error _ => (⟨500, some "Unable to delete project."⟩, fs1, tr0)
  | .ok projectPath =>
    if ¬ fsExists fs1 projectPath then
      (⟨404, some "Project not found."⟩, fs1, tr0 ++ [.statOp projectPath])
    else
      match fsReaddir fs1 projectPath with
      | none =>
        (⟨500, some "Unable to delete project."⟩, fs1,
          tr0 ++ [.statOp projectPath, .readdirOp projectPath])
      | some entries =>
        if entries.any (fun e => isFileNode e.2 && endsWithWav e.1) then
          (⟨400, some "Project has demo files and cannot be deleted."⟩, fs1,
            tr0 ++ [.statOp projectPath, .readdirOp projectPath])
        else
          (⟨200, none⟩, fsRemoveTree fs1 projectPath,
            tr0 ++ [.statOp projectPath, .readdirOp projectPath, .rmOp projectPath])

/-- The target filename computed by the demo-rename handler
(server.js:516-523): sanitized and with a .wav suffix forced. -/
def demoNextName (rawName : String) : String :=
  let nextName := toSafeFileName rawName
  if endsWithWav nextName then nextName else nextName ++ ".wav"

/-- Embeds PUT /api/projects/:name/demos/:file (server.js:511):
sanitize the requested name, force a .wav suffix, resolve both paths
inside the project, and rename — overwriting any file already at the
target, since no existence check is made on it. -/
def renameDemo (musicDir : List String) (projectName currentFile : String)
    (bodyName : Option String) (fs : Fs) : HResp × Fs × List FsOp :=
  let rawName := bodyName.getD ""
  let nextName := toSafeFileName rawName
  if nextName = "" then (⟨400, some "Demo name is required."⟩, fs, [])
  else
    let safeNextName := demoNextName rawName
    match resolveProjectPath musicDir projectName with
    | .error _ => (⟨500, some "Unable to rename demo."⟩, fs, [])
    | .ok projectPath =>
      let currentPath := jsResolve2 projectPath currentFile
      let nextPath := jsResolve2 projectPath safeNextName
      if ¬ (inDirStrict projectPath currentPath && inDirStrict projectPath nextPath) then
        (⟨400, some "Invalid demo file."⟩, fs, [])
      else if ¬ fsExists fs currentPath then
        (⟨404, some "Demo file not found."⟩, fs, [.statOp currentPath])
      else
        (⟨200, none⟩, fsRename fs currentPath nextPath,
          [.statOp currentPath, .renameOp currentPath nextPath])

/-- Embeds DELETE /api/projects/:name/demos/:file (server.js:545):
resolve inside the project, reject escapes with 400, unlink (ENOENT
answers 404; unlinking a directory fails and answers 500). -/
def deleteDemo (musicDir : List String) (projectName fileName : String)
    (fs : Fs) : HResp × Fs × List FsOp :=
  match resolveProjectPath musicDir projectName with
  | .error _ => (⟨500, some "Unable to delete demo."⟩, fs, [])
  | .ok projectPath =>
    let filePath := jsResolve2 projectPath fileName
    if ¬ inDirStrict projectPath filePath then
      (⟨400, some "Invalid demo file."⟩, fs, [])
    else
      match fsFind fs filePath with
      | none => (⟨404, some "Demo file not found."⟩, fs, [.unlinkOp filePath])
      | some .dir => (⟨500, some "Unable to delete demo."⟩, fs, [.unlinkOp filePath])
      | some (.file _) =>
        (⟨200, none⟩, fs.filter (fun e => ¬ e.1 = filePath), [.unlinkOp filePath])

/-! ## Credential store, sessions and guards (server.js lines 25-199)

The PBKDF2 derivation and the base64 decoding of the stored hash are
abstracted: a credential record carries the decoded stored hash bytes,
and the key-derivation function is a parameter.  timingSafeEqual is
byte-list equality (its constant-time execution is a non-functional
property). -/

structure AuthConfig where
  hashBytes : List Nat
  salt : String
  iterations : Nat
  digest : String
deriving DecidableEq, Repr

/-- The type of the abstracted crypto.pbkdf2Sync: password, salt,
iterations, digest to derived bytes (the keylen 64 is fixed by the
caller). -/
abbrev Kdf := String → String → Nat → String → List Nat

/-- Embeds verifyPassword (server.js:84). -/
def verifyPassword (kdf : Kdf) (password : String) (config : AuthConfig) : Bool :=
  let derived := kdf password config.salt config.iterations config.digest
  if config.hashBytes.length ≠ derived.length then false
  else config.hashBytes = derived

/-- Embeds isAuthenticated (server.js:57): the session cookie's token
must be truthy (present and non-empty) and a member of the in-memory
token set (modelled as a list with membership semantics). -/
def isAuthenticated (sessionTokens : List String) (token : Option String) : Bool :=
  match token with
  | none => false
  | some t => ¬ t = "" && sessionTokens.contains t

structure LoginResult where
  status : Nat
  errMsg : Option String
  sessionTokens : List String
deriving DecidableEq, Repr

/-- Embeds POST /api/auth/login (server.js:171): reject when no
credential record exists or the password is empty or fails
verification, in those cases leaving the token set untouched;
otherwise add a freshly generated token (a parameter here, the code
draws it from crypto.randomBytes) to the set. -/
def login (kdf : Kdf) (authConfig : Option AuthConfig) (sessionTokens : List String)
    (bodyPassword : Option String) (newToken : String) : LoginResult :=
  match authConfig with
  | none => ⟨400, some "No password configured yet.", sessionTokens⟩
  | some config =>
    let password := bodyPassword.getD ""
    if password = "" then ⟨400, some "Password is required.", sessionTokens⟩
    else if ¬ verifyPassword kdf password config then
      ⟨401, some "Incorrect password.", sessionTokens⟩
    else ⟨200, none, newToken :: sessionTokens⟩

/-- A middleware either rejects with a status and message or passes
control on; its inputs are the auth state and the request's addresses
and session token. -/
abbrev Middleware :=
  Option AuthConfig → List String → List String → Option String → Option (Nat × String)

/-- Embeds restrictMutationsToLocal (server.js:135): 403 unless some
candidate address classifies as local-network. -/
def restrictMutationsToLocal : Middleware := fun _ _ requestIps _ =>
  if requestIps.any isLocalNetworkIp then none
  else some (403, "Editing is restricted to the local network.")

/-- Embeds requireAuth (server.js:93): 401 when no credential record
exists, 401 when the request has no valid session. -/
def requireAuth : Middleware := fun authConfig sessionTokens _ token =>
  match authConfig with
  | none => some (401, "Set an editing password to continue.")
  | some _ =>
    if isAuthenticated sessionTokens token then none
    else some (401, "Authentication required.")

/-- The mutating routes of the API (server.js lines 384, 417, 449,
501, 511, 545). -/
inductive MutatingRoute where
  | createProjectR
  | renameProjectR
  | deleteProjectR
  | uploadDemoR
  | renameDemoR
  | deleteDemoR
deriving DecidableEq, Repr

/-- The middleware chain the code attaches to each mutating route: the
origin restriction first, then the session requirement. -/
def routeMiddlewares : MutatingRoute → List Middleware :=
  fun _ => [restrictMutationsToLocal, requireAuth]

/-- Runs a middleware chain: the first rejection wins; none means the
request reaches the route handler. -/
def runMiddlewares (ms : List Middleware) (authConfig : Option AuthConfig)
    (sessionTokens : List String) (requestIps : List String)
    (token : Option String) : Option (Nat × String) :=
  match ms with
  | [] => none
  | m :: rest =>
    match m authConfig sessionTokens requestIps token with
    | some r => some r
    | none => runMiddlewares rest authConfig sessionTokens requestIps token

/-- The guard outcome of a mutating route. -/
def routeGuard (r : MutatingRoute) (authConfig : Option AuthConfig)
    (sessionTokens : List String) (requestIps : List String)
    (token : Option String) : Option (Nat × String) :=
  runMiddlewares (routeMiddlewares r) authConfig sessionTokens requestIps token

/-! ## Project listing (server.js lines 274-317)

The directory scan is given as input data: for each subdirectory of
the music root, its name and either its entries (name, is-file,
mtimeMs) or none when reading it failed — the catch branch of
getProjects.  The sort embeds Array.prototype.sort with the code's
comparator; V8's sort is stable, modelled by a stable insertion
sort.  localeCompare is a parameter, as its order is locale
dependent. -/

structure DirEntry where
  name : String
  isFileE : Bool
  mtimeMs : Int
deriving DecidableEq, Repr

structure ProjectInput where
  name : String
  listing : Option (List DirEntry)
deriving DecidableEq, Repr

structure ProjectInfo where
  name : String
  latestDemoMs : Int
  hasDemos : Bool
deriving DecidableEq, Repr

/-- Math.max over a non-empty list of mtimes. -/
def listMax : Int → List Int → Int
  | m, [] => m
  | m, x :: xs => listMax (max m x) xs

/-- The per-directory body of getProjects (server.js:279-308): filter
the .wav regular files, take the newest mtime (0 when none); a read
failure degrades to no demos. -/
def summarizeProject (p : ProjectInput) : ProjectInfo :=
  match p.listing with
  | none => ⟨p.name, 0, false⟩
  | some entries =>
    let wavFiles := entries.filter fun e => e.isFileE && endsWithWav e.name
    match wavFiles.map (·.mtimeMs) with
    | [] => ⟨p.name, 0, false⟩
    | t :: ts => ⟨p.name, listMax t ts, true⟩

/-- The comparator of server.js:311 as an integer, with localeCompare
as a parameter (its Ordering stands for the sign of the JavaScript
return value): descending latest-demo time, then ascending name. -/
def projCmpVal (cmp : String → String → Ordering) (a b : ProjectInfo) : Int :=
  if b.latestDemoMs ≠ a.latestDemoMs then b.latestDemoMs - a.latestDemoMs
  else
    match cmp a.name b.name with
    | .lt => -1
    | .eq => 0
    | .gt => 1

/-- a sorts no later than b under the comparator. -/
def projLe (cmp : String → String → Ordering) (a b : ProjectInfo) : Bool :=
  projCmpVal cmp a b ≤ 0

/-- Stable insertion of an element into a sorted list. -/
def insertSorted (le : α → α → Bool) (a : α) : List α → List α
  | [] => [a]
  | b :: bs => if le a b then a :: b :: bs else b :: insertSorted le a bs

/-- Stable insertion sort, modelling Array.prototype.sort with a
consistent comparator. -/
def sortByLe (le : α → α → Bool) : List α → List α
  | [] => []
  | a :: as => insertSorted le a (sortByLe le as)

/-- Embeds getProjects (server.js:274): summarize every subdirectory
and sort with the comparator. -/
def getProjects (cmp : String → String → Ordering) (dirs : List ProjectInput) :
    List ProjectInfo :=
  sortByLe (projLe cmp) (dirs.map summarizeProject)

/-! ## Shared concrete sample data for witnesses -/

def wroot : List String := ["srv", "music"]

def wbytes : List Nat := [10, 11, 12, 13, 14, 15, 16, 17, 18, 19]

def wfs : Fs :=
  [(wroot, .dir), (wroot ++ ["proj"], .dir), (wroot ++ ["proj", "a.wav"], .file wbytes)]

/-! ## Claims about the range streamer -/

/-- C1: for every file of size N served by GET /music/:project/:file
and every range header with parseable start s and end e (e defaulting
to N-1 when omitted), s ≤ e and both in [0, N), the response has
status 206, Content-Range bytes s-e/N, Content-Length e-s+1, and the
body is exactly the file's bytes at offsets s through e. -/
theorem c1_range_streaming (musicDir : List String) (projectName fileName : String)
    (fs : Fs) (content : List Nat) (hdr : String) (s e : Int)
    (hpath : inDirStrict musicDir (jsResolve2 (jsResolve2 musicDir projectName) fileName) = true)
    (hfile : fsFind fs (jsResolve2 (jsResolve2 musicDir projectName) fileName) =
      some (FsNode.file content))
    (hs : rangeStart hdr.toList = some s)
    (he : rangeEnd hdr.toList (content.length : Int) = some e)
    (h0 : 0 ≤ s) (hse : s ≤ e) (heN : e < (content.length : Int)) :
    (streamFile musicDir projectName fileName (some hdr) fs).1 =
      ⟨206, some (.part s e (content.length : Int)), some (e - s + 1),
        some (sliceBytes content s e)⟩ ∧
    ((sliceBytes content s e).length : Int) = e - s + 1 ∧
    (∀ i : Nat, (i : Int) < e - s + 1 →
      (sliceBytes content s e)[i]? = content[s.toNat + i]?) ∧
    (∀ hdr2 : Chars, (rangeParts hdr2).get? 1 = none ∨ (rangeParts hdr2).get? 1 = some [] →
      rangeEnd hdr2 (content.length : Int) = some ((content.length : Int) - 1)) := by
  have hne : ¬ hdr = "" := by
    intro h0
    rw [h0] at hs
    exact Option.noConfusion ((by decide : rangeStart ("" : String).toList = none).symm.trans hs)
  refine ⟨?_, ?_, ?_, ?_⟩
  · simp only [streamFile, hpath, not_true_eq_false, if_false, hfile]
    rw [if_pos hne]
    simp only [rangeBranch, hs, he]
    rw [if_neg (by omega), if_neg (by omega)]
  · simp only [sliceBytes, List.length_take, List.length_drop]
    omega
  · intro i hi
    simp only [sliceBytes]
    rw [List.getElem?_take_of_lt (by omega), List.getElem?_drop]
  · intro hdr2 h2
    rcases h2 with h2 | h2 <;> rw [List.get?_eq_getElem?] at h2 <;> simp [rangeEnd, h2]

theorem c1_witness :
    (streamFile wroot "proj" "a.wav" (some "bytes=2-5") wfs).1 =
      ⟨206, some (.part 2 5 10), some 4, some [12, 13, 14, 15]⟩ :=
  (c1_range_streaming wroot "proj" "a.wav" wfs wbytes "bytes=2-5" 2 5
    (by decide) (by decide) (by decide) (by decide) (by decide) (by decide) (by decide)).1

/-- C2: for every file of size N and every range header whose start or
end fails to parse, or whose start or end is at least N, the response
is 416 with Content-Range bytes */N and no file bytes are streamed
(the body is empty and no read of the file occurs). -/
theorem c2_range_not_satisfiable (musicDir : List String) (projectName fileName : String)
    (fs : Fs) (content : List Nat) (hdr : String)
    (hpath : inDirStrict musicDir (jsResolve2 (jsResolve2 musicDir projectName) fileName) = true)
    (hfile : fsFind fs (jsResolve2 (jsResolve2 musicDir projectName) fileName) =
      some (FsNode.file content))
    (hbad : rangeStart hdr.toList = none ∨
      rangeEnd hdr.toList (content.length : Int) = none ∨
      (∃ s, rangeStart hdr.toList = some s ∧ (content.length : Int) ≤ s) ∨
      (∃ e, rangeEnd hdr.toList (content.length : Int) = some e ∧ (content.length : Int) ≤ e))
    (hne : ¬ hdr = "") :
    (streamFile musicDir projectName fileName (some hdr) fs).1 =
      ⟨416, some (.unsat (content.length : Int)), none, none⟩ ∧
    (streamFile musicDir projectName fileName (some hdr) fs).2 =
      [.statOp (jsResolve2 (jsResolve2 musicDir projectName) fileName)] := by
  have hbr : rangeBranch content hdr.toList =
      ⟨416, some (.unsat (content.length : Int)), none, none⟩ := by
    rcases hS : rangeStart hdr.toList with _ | s
    · rcases hE : rangeEnd hdr.toList (content.length : Int) with _ | e <;>
        simp only [rangeBranch, hS, hE]
    · rcases hE : rangeEnd hdr.toList (content.length : Int) with _ | e
      · simp only [rangeBranch, hS, hE]
      · simp only [rangeBranch, hS, hE]
        rw [if_pos ?_]
        rcases hbad with h | h | ⟨s1, hs1, hN1⟩ | ⟨e1, he1, hN1⟩
        · rw [hS] at h; cases h
        · rw [hE] at h; cases h
        · rw [hS] at hs1; injection hs1 with h1; omega
        · rw [hE] at he1; injection he1 with h1; omega
  constructor
  · simp only [streamFile, hpath, not_true_eq_false, if_false, hfile]
    rw [if_pos hne]
    simp only [hbr]
  · simp only [streamFile, hpath, not_true_eq_false, if_false, hfile]
    rw [if_pos hne]
    simp only [hbr]
    simp

theorem c2_witness :
    (streamFile wroot "proj" "a.wav" (some "bytes=abc-5") wfs).1 =
      ⟨416, some (.unsat 10), none, none⟩ ∧
    (streamFile wroot "proj" "a.wav" (some "bytes=abc-5") wfs).2 =
      [.statOp ["srv", "music", "proj", "a.wav"]] :=
  c2_range_not_satisfiable wroot "proj" "a.wav" wfs wbytes "bytes=abc-5"
    (by decide) (by decide) (Or.inl (by decide)) (by decide)

/-- C10 counterexample: on a 10-byte file, the header bytes=7-3 has
parseable start 7 and end 3, both in [0, 10), with start > end; the
claimed response — 206 with Content-Length e-s+1 — does not happen:
fs.createReadStream throws ERR_OUT_OF_RANGE for start > end and the
request is answered 500. -/
theorem c10_counterexample :
    rangeStart "bytes=7-3".toList = some 7 ∧
    rangeEnd "bytes=7-3".toList ((wbytes.length : Int)) = some 3 ∧
    (streamFile wroot "proj" "a.wav" (some "bytes=7-3") wfs).1.status = 500 ∧
    ¬ (streamFile wroot "proj" "a.wav" (some "bytes=7-3") wfs).1.status = 206 ∧
    ¬ (streamFile wroot "proj" "a.wav" (some "bytes=7-3") wfs).1.contentLength =
      some (3 - 7 + 1) := by decide

/-- C10 amended: for every file of size N and range header in which s
and e both parse and both lie in [0, N) but s > e, the handler itself
performs no start-not-greater-than-end validation — the response is
never 416 — but fs.createReadStream validates start ≤ end and throws
ERR_OUT_OF_RANGE, so the request is answered 500 (not 206) with no
file bytes streamed. -/
theorem c10_inverted_range_500 (musicDir : List String) (projectName fileName : String)
    (fs : Fs) (content : List Nat) (hdr : String) (s e : Int)
    (hpath : inDirStrict musicDir (jsResolve2 (jsResolve2 musicDir projectName) fileName) = true)
    (hfile : fsFind fs (jsResolve2 (jsResolve2 musicDir projectName) fileName) =
      some (FsNode.file content))
    (hs : rangeStart hdr.toList = some s)
    (he : rangeEnd hdr.toList (content.length : Int) = some e)
    (h0s : 0 ≤ s) (h0e : 0 ≤ e) (hsN : s < (content.length : Int))
    (heN : e < (content.length : Int)) (hinv : e < s) :
    (streamFile musicDir projectName fileName (some hdr) fs).1 = ⟨500, none, none, none⟩ ∧
    ¬ (streamFile musicDir projectName fileName (some hdr) fs).1.status = 206 ∧
    ¬ (streamFile musicDir projectName fileName (some hdr) fs).1.status = 416 ∧
    (streamFile musicDir projectName fileName (some hdr) fs).2 =
      [.statOp (jsResolve2 (jsResolve2 musicDir projectName) fileName)] := by
  have hne : ¬ hdr = "" := by
    intro h0
    rw [h0] at hs
    exact Option.noConfusion ((by decide : rangeStart ("" : String).toList = none).symm.trans hs)
  have hr : (streamFile musicDir projectName fileName (some hdr) fs) =
      (⟨500, none, none, none⟩,
        [.statOp (jsResolve2 (jsResolve2 musicDir projectName) fileName)]) := by
    have hbr : rangeBranch content hdr.toList = ⟨500, none, none, none⟩ := by
      simp only [rangeBranch, hs, he]
      rw [if_neg (by omega), if_pos (by omega)]
    simp only [streamFile, hpath, not_true_eq_false, if_false, hfile]
    rw [if_pos hne]
    simp only [hbr]
    simp
  refine ⟨by rw [hr], by rw [hr]; simp, by rw [hr]; simp, by rw [hr]⟩

theorem c10_witness :
    (streamFile wroot "proj" "a.wav" (some "bytes=7-3") wfs).1 = ⟨500, none, none, none⟩ ∧
    ¬ (streamFile wroot "proj" "a.wav" (some "bytes=7-3") wfs).1.status = 206 ∧
    ¬ (streamFile wroot "proj" "a.wav" (some "bytes=7-3") wfs).1.status = 416 ∧
    (streamFile wroot "proj" "a.wav" (some "bytes=7-3") wfs).2 =
      [.statOp ["srv", "music", "proj", "a.wav"]] :=
  c10_inverted_range_500 wroot "proj" "a.wav" wfs wbytes "bytes=7-3" 7 3
    (by decide) (by decide) (by decide) (by decide) (by decide) (by decide)
    (by decide) (by decide) (by decide)

/-! ## Helper lemmas about the filesystem model -/

theorem isPrefixOf_self [BEq α] [LawfulBEq α] (l : List α) : l.isPrefixOf l = true := by
  induction l with
  | nil => rfl
  | cons a t ih => simp [List.isPrefixOf, ih]

theorem fsFind_filter_keep (fs : Fs) (p : (List String × FsNode) → Bool) (q : List String)
    (hq : ∀ n, p (q, n) = true) :
    fsFind (fs.filter p) q = fsFind fs q := by
  induction fs with
  | nil => rfl
  | cons e fs ih =>
    rw [List.filter_cons]
    by_cases hkey : e.1 = q
    · have hpe : p e = true := by
        have he : e = (q, e.2) := by rw [← hkey]
        rw [he]; exact hq e.2
      rw [if_pos hpe]
      simp only [fsFind]
      rw [List.find?_cons_of_pos _ (by simp [hkey]),
        List.find?_cons_of_pos _ (by simp [hkey])]
    · by_cases hp : p e = true
      · rw [if_pos hp]
        simp only [fsFind]
        rw [List.find?_cons_of_neg _ (by simp [hkey]),
          List.find?_cons_of_neg _ (by simp [hkey])]
        exact ih
      · rw [if_neg hp]
        simp only [fsFind]
        rw [List.find?_cons_of_neg _ (by simp [hkey])]
        exact ih

theorem fsFind_filter_drop (fs : Fs) (p : (List String × FsNode) → Bool) (q : List String)
    (hq : ∀ n, p (q, n) = false) :
    fsFind (fs.filter p) q = none := by
  induction fs with
  | nil => rfl
  | cons e fs ih =>
    rw [List.filter_cons]
    by_cases hkey : e.1 = q
    · have hpe : p e = false := by
        have he : e = (q, e.2) := by rw [← hkey]
        rw [he]; exact hq e.2
      rw [if_neg (by simp [hpe])]
      exact ih
    · by_cases hp : p e = true
      · rw [if_pos hp]
        simp only [fsFind]
        rw [List.find?_cons_of_neg _ (by simp [hkey])]
        exact ih
      · rw [if_neg hp]
        exact ih

/-! ## Claims about the guards and login -/

/-- C4: on every mutating route the middleware chain is the origin
restriction followed by the session requirement; a non-local origin is
rejected 403 whatever the session state (in particular with a valid
token), a local origin with no credential record is rejected 401
(setup required), and a local origin without a valid session is
rejected 401. -/
theorem c4_mutation_guards (r : MutatingRoute) (cfg : Option AuthConfig)
    (tokens ips : List String) (token : Option String) :
    routeMiddlewares r = [restrictMutationsToLocal, requireAuth] ∧
    (ips.any isLocalNetworkIp = false →
      routeGuard r cfg tokens ips token =
        some (403, "Editing is restricted to the local network.")) ∧
    (ips.any isLocalNetworkIp = true → cfg = none →
      routeGuard r cfg tokens ips token =
        some (401, "Set an editing password to continue.")) ∧
    (∀ c, ips.any isLocalNetworkIp = true → cfg = some c →
      isAuthenticated tokens token = false →
      routeGuard r cfg tokens ips token = some (401, "Authentication required.")) := by
  refine ⟨rfl, ?_, ?_, ?_⟩
  · intro hip
    simp [routeGuard, routeMiddlewares, runMiddlewares, restrictMutationsToLocal, hip]
  · intro hip hcfg
    subst hcfg
    simp [routeGuard, routeMiddlewares, runMiddlewares, restrictMutationsToLocal, hip,
      requireAuth]
  · intro c hip hcfg hauth
    subst hcfg
    simp [routeGuard, routeMiddlewares, runMiddlewares, restrictMutationsToLocal, hip,
      requireAuth, hauth]

theorem c4_witness :
    routeMiddlewares .renameDemoR = [restrictMutationsToLocal, requireAuth] ∧
    routeGuard .renameDemoR (some ⟨[1], "s", 1, "sha512"⟩) ["tok"] ["8.8.8.8"] (some "tok") =
      some (403, "Editing is restricted to the local network.") ∧
    routeGuard .renameDemoR none ["tok"] ["10.0.0.2"] (some "tok") =
      some (401, "Set an editing password to continue.") ∧
    routeGuard .renameDemoR (some ⟨[1], "s", 1, "sha512"⟩) ["tok"] ["10.0.0.2"] (some "bad") =
      some (401, "Authentication required.") :=
  ⟨(c4_mutation_guards .renameDemoR (some ⟨[1], "s", 1, "sha512"⟩) ["tok"] ["8.8.8.8"]
      (some "tok")).1,
   (c4_mutation_guards .renameDemoR (some ⟨[1], "s", 1, "sha512"⟩) ["tok"] ["8.8.8.8"]
      (some "tok")).2.1 (by decide),
   (c4_mutation_guards .renameDemoR none ["tok"] ["10.0.0.2"] (some "tok")).2.2.1
      (by decide) rfl,
   (c4_mutation_guards .renameDemoR (some ⟨[1], "s", 1, "sha512"⟩) ["tok"] ["10.0.0.2"]
      (some "bad")).2.2.2 ⟨[1], "s", 1, "sha512"⟩ (by decide) rfl (by decide)⟩

/-- C8: login with an unconfigured store answers 400 (NotConfigured)
and with an empty password answers 400 (MissingPassword), in both
cases leaving the session-token set unchanged; a password that fails
verification answers 401 (InvalidCredentials) with the set unchanged;
a verifying password answers ok with the fresh token added to the
set. -/
theorem c8_login (kdf : Kdf) (tokens : List String) (newToken : String) :
    (∀ pw, login kdf none tokens pw newToken =
      ⟨400, some "No password configured yet.", tokens⟩) ∧
    (∀ c pw, pw.getD "" = "" → login kdf (some c) tokens pw newToken =
      ⟨400, some "Password is required.", tokens⟩) ∧
    (∀ c p, ¬ p = "" → verifyPassword kdf p c = false →
      login kdf (some c) tokens (some p) newToken =
        ⟨401, some "Incorrect password.", tokens⟩) ∧
    (∀ c p, ¬ p = "" → verifyPassword kdf p c = true →
      login kdf (some c) tokens (some p) newToken = ⟨200, none, newToken :: tokens⟩) := by
  refine ⟨fun pw => rfl, ?_, ?_, ?_⟩
  · intro c pw hpw
    simp [login, hpw]
  · intro c p hp hv
    simp [login, hp, hv]
  · intro c p hp hv
    simp [login, hp, hv]

def wkdf : Kdf := fun _ _ _ _ => [1, 2, 3]

theorem c8_witness :
    login wkdf none ["t0"] (some "pw12345678") "fresh" =
      ⟨400, some "No password configured yet.", ["t0"]⟩ ∧
    login wkdf (some ⟨[1, 2, 3], "s", 1, "sha512"⟩) ["t0"] (some "") "fresh" =
      ⟨400, some "Password is required.", ["t0"]⟩ ∧
    login wkdf (some ⟨[9], "s", 1, "sha512"⟩) ["t0"] (some "pw12345678") "fresh" =
      ⟨401, some "Incorrect password.", ["t0"]⟩ ∧
    login wkdf (some ⟨[1, 2, 3], "s", 1, "sha512"⟩) ["t0"] (some "pw12345678") "fresh" =
      ⟨200, none, ["fresh", "t0"]⟩ :=
  ⟨(c8_login wkdf ["t0"] "fresh").1 (some "pw12345678"),
   (c8_login wkdf ["t0"] "fresh").2.1 ⟨[1, 2, 3], "s", 1, "sha512"⟩ (some "") rfl,
   (c8_login wkdf ["t0"] "fresh").2.2.1 ⟨[9], "s", 1, "sha512"⟩ "pw12345678"
     (by decide) (by decide),
   (c8_login wkdf ["t0"] "fresh").2.2.2 ⟨[1, 2, 3], "s", 1, "sha512"⟩ "pw12345678"
     (by decide) (by decide)⟩

theorem resolveProjectPath_ok (musicDir : List String) (n : String) (pp : List String)
    (h : resolveProjectPath musicDir n = .ok pp) :
    pp = jsResolve2 musicDir n ∧ inDirStrict musicDir pp = true := by
  unfold resolveProjectPath at h
  by_cases hc : inDirStrict musicDir (jsResolve2 musicDir n) = true
  · rw [if_pos hc] at h
    injection h with h
    subst h
    exact ⟨rfl, hc⟩
  · rw [if_neg hc] at h
    cases h

theorem resolveProjectPath_err (musicDir : List String) (n : String)
    (h : inDirStrict musicDir (jsResolve2 musicDir n) = false) :
    resolveProjectPath musicDir n = .error "Invalid project path" := by
  unfold resolveProjectPath
  rw [if_neg (by simp [h])]

theorem opsWithinRoot_nil (root : List String) : opsWithinRoot root [] := by
  intro op hop
  cases hop

theorem opsWithinRoot_mkdir_self (root : List String) :
    opsWithinRoot root [FsOp.mkdirOp root] := by
  intro op hop q hq
  rw [List.mem_singleton.mp hop] at hq
  simp only [FsOp.paths, List.mem_singleton] at hq
  rw [hq]
  exact isPrefixOf_self root

theorem isPrefixOf_append_self [BEq α] [LawfulBEq α] (l t : List α) :
    l.isPrefixOf (l ++ t) = true := by
  induction l with
  | nil => simp [List.isPrefixOf]
  | cons a l ih => simp [List.isPrefixOf, ih]

theorem find?_kept_none (fs : Fs) (cur next q : List String)
    (hq : q.isPrefixOf q = true →
      cur.isPrefixOf q = true ∨ next.isPrefixOf q = true) :
    (fs.filter
      (fun e => ¬ (cur.isPrefixOf e.1 ∨ next.isPrefixOf e.1))).find?
        (fun e => e.1 = q) = none := by
  rw [List.find?_eq_none]
  intro x hx
  rcases List.mem_filter.mp hx with ⟨_, hcond⟩
  have hcond2 : ¬ (cur.isPrefixOf x.1 = true ∨ next.isPrefixOf x.1 = true) := by
    simpa using hcond
  intro hkey
  rw [of_decide_eq_true hkey] at hcond2
  exact hcond2 (hq (isPrefixOf_self q))

theorem find?_moved_some (fs : Fs) (cur next : List String) (c : List Nat)
    (hfc : fsFind fs cur = some (.file c))
    (hprefc : ∀ e ∈ fs, cur.isPrefixOf e.1 = true → e.1 = cur) :
    ((fs.filterMap (fun e =>
      if cur.isPrefixOf e.1 then some (next ++ e.1.drop cur.length, e.2) else none)).find?
        (fun e => e.1 = next)) = some (next, FsNode.file c) := by
  induction fs with
  | nil => simp [fsFind] at hfc
  | cons e fs ih =>
    by_cases hc : cur.isPrefixOf e.1 = true
    · have hkey : e.1 = cur := hprefc e (List.mem_cons_self e fs) hc
      have hfirst : fsFind (e :: fs) cur = some e.2 := by
        simp [fsFind, List.find?_cons_of_pos, hkey]
      rw [hfirst] at hfc
      injection hfc with hfc
      rw [List.filterMap_cons]
      simp only [hc, if_true]
      rw [List.find?_cons_of_pos _ (by simp [hkey, List.drop_length])]
      rw [hkey, List.drop_length, List.append_nil, hfc]
    · have hkey : ¬ e.1 = cur := by
        intro hk
        rw [hk] at hc
        exact hc (isPrefixOf_self cur)
      have htail : fsFind fs cur = some (.file c) := by
        simp only [fsFind] at hfc ⊢
        rwa [List.find?_cons_of_neg _ (by simp [hkey])] at hfc
      rw [List.filterMap_cons]
      simp only [Bool.not_eq_true] at hc
      simp only [hc, Bool.false_eq_true, if_false]
      exact ih htail (fun x hx hp => hprefc x (List.mem_cons_of_mem e hx) hp)

theorem find?_moved_none (fs : Fs) (cur next : List String)
    (hnp : ¬ next.isPrefixOf cur = true) :
    ((fs.filterMap (fun e =>
      if cur.isPrefixOf e.1 then some (next ++ e.1.drop cur.length, e.2) else none)).find?
        (fun e => e.1 = cur)) = none := by
  rw [List.find?_eq_none]
  intro x hx
  rcases List.mem_filterMap.mp hx with ⟨a, _, hfa⟩
  by_cases hc : cur.isPrefixOf a.1 = true
  · rw [if_pos hc] at hfa
    injection hfa with hfa
    intro hkey
    rw [← hfa] at hkey
    have heq : cur = next ++ a.1.drop cur.length := (of_decide_eq_true hkey).symm
    exact hnp (heq ▸ isPrefixOf_append_self next (a.1.drop cur.length))
  · rw [if_neg hc] at hfa
    cases hfa

theorem fsRename_find_dst (fs : Fs) (cur next : List String) (c : List Nat)
    (hfc : fsFind fs cur = some (.file c))
    (hprefc : ∀ e ∈ fs, cur.isPrefixOf e.1 = true → e.1 = cur) :
    fsFind (fsRename fs cur next) next = some (.file c) := by
  have hkept := find?_kept_none fs cur next next (fun h => Or.inr h)
  have hmoved := find?_moved_some fs cur next c hfc hprefc
  simp only [fsRename, fsFind, List.find?_append]
  rw [show ((fs.filter (fun e => ¬ (cur.isPrefixOf e.1 ∨ next.isPrefixOf e.1))).find?
      (fun e => decide (e.1 = next))) = none from hkept]
  rw [Option.none_or]
  rw [show ((fs.filterMap (fun e =>
      if cur.isPrefixOf e.1 then some (next ++ e.1.drop cur.length, e.2) else none)).find?
        (fun e => decide (e.1 = next))) = some (next, FsNode.file c) from hmoved]
  rfl

theorem fsRename_find_src (fs : Fs) (cur next : List String)
    (hnp : ¬ next.isPrefixOf cur = true) :
    fsFind (fsRename fs cur next) cur = none := by
  have hkept := find?_kept_none fs cur next cur (fun h => Or.inl h)
  have hmoved := find?_moved_none fs cur next hnp
  simp only [fsRename, fsFind, List.find?_append]
  rw [show ((fs.filter (fun e => ¬ (cur.isPrefixOf e.1 ∨ next.isPrefixOf e.1))).find?
      (fun e => decide (e.1 = cur))) = none from hkept]
  rw [Option.none_or]
  rw [show ((fs.filterMap (fun e =>
      if cur.isPrefixOf e.1 then some (next ++ e.1.drop cur.length, e.2) else none)).find?
        (fun e => decide (e.1 = cur))) = none from hmoved]
  rfl

/-! ## Claim about path confinement -/

/-- C3: whenever a name parameter's resolved path escapes the music
root (or, for demo operations, the project directory), the operation
rejects the request — 400 where the handler checks the path itself,
500 where resolveProjectPath throws its resolution error — and its
filesystem trace stays inside the music root (it is empty, or the
single mkdir of the root that ensureMusicDir performs). -/
theorem c3_path_confinement (musicDir : List String) :
    (∀ pn fn rh fs,
      inDirStrict musicDir (jsResolve2 (jsResolve2 musicDir pn) fn) = false →
      (streamFile musicDir pn fn rh fs).1.status = 400 ∧
      (streamFile musicDir pn fn rh fs).2 = []) ∧
    (∀ bn bnote fs,
      inDirStrict musicDir (jsResolve2 musicDir (toSafeName (bn.getD ""))) = false →
      ((createProject musicDir bn bnote fs).1.status = 400 ∨
        (createProject musicDir bn bnote fs).1.status = 500) ∧
      (createProject musicDir bn bnote fs).2.2 = [FsOp.mkdirOp musicDir] ∧
      opsWithinRoot musicDir (createProject musicDir bn bnote fs).2.2) ∧
    (∀ cn bn fs,
      (inDirStrict musicDir (jsResolve2 musicDir cn) = false ∨
        inDirStrict musicDir (jsResolve2 musicDir (toSafeName (bn.getD ""))) = false) →
      ((renameProject musicDir cn bn fs).1.status = 400 ∨
        (renameProject musicDir cn bn fs).1.status = 500) ∧
      (renameProject musicDir cn bn fs).2.2 = [FsOp.mkdirOp musicDir] ∧
      opsWithinRoot musicDir (renameProject musicDir cn bn fs).2.2) ∧
    (∀ pn fs,
      inDirStrict musicDir (jsResolve2 musicDir pn) = false →
      (deleteProject musicDir pn fs).1.status = 500 ∧
      (deleteProject musicDir pn fs).2.2 = [FsOp.mkdirOp musicDir] ∧
      opsWithinRoot musicDir (deleteProject musicDir pn fs).2.2) ∧
    (∀ pn cf bn fs,
      (inDirStrict musicDir (jsResolve2 musicDir pn) = false ∨
        inDirStrict (jsResolve2 musicDir pn) (jsResolve2 (jsResolve2 musicDir pn) cf) = false ∨
        inDirStrict (jsResolve2 musicDir pn)
          (jsResolve2 (jsResolve2 musicDir pn) (demoNextName (bn.getD ""))) = false) →
      ((renameDemo musicDir pn cf bn fs).1.status = 400 ∨
        (renameDemo musicDir pn cf bn fs).1.status = 500) ∧
      (renameDemo musicDir pn cf bn fs).2.2 = []) ∧
    (∀ pn fn fs,
      (inDirStrict musicDir (jsResolve2 musicDir pn) = false ∨
        inDirStrict (jsResolve2 musicDir pn) (jsResolve2 (jsResolve2 musicDir pn) fn) = false) →
      ((deleteDemo musicDir pn fn fs).1.status = 400 ∨
        (deleteDemo musicDir pn fn fs).1.status = 500) ∧
      (deleteDemo musicDir pn fn fs).2.2 = []) := by
  refine ⟨?_, ?_, ?_, ?_, ?_, ?_⟩
  · intro pn fn rh fs h
    simp only [streamFile]
    rw [if_pos (by simp [h])]
    exact ⟨rfl, rfl⟩
  · intro bn bnote fs h
    by_cases hn : toSafeName (bn.getD "") = ""
    · simp only [createProject, hn, if_pos]
      exact ⟨Or.inl (by trivial), by trivial, opsWithinRoot_mkdir_self musicDir⟩
    · have hres := resolveProjectPath_err musicDir (toSafeName (bn.getD "")) h
      simp only [createProject, hn, if_false, hres]
      exact ⟨Or.inr (by trivial), by trivial, opsWithinRoot_mkdir_self musicDir⟩
  · intro cn bn fs h
    by_cases hn : toSafeName (bn.getD "") = ""
    · simp only [renameProject, hn, if_pos]
      exact ⟨Or.inl (by trivial), by trivial, opsWithinRoot_mkdir_self musicDir⟩
    · rcases h with h | h
      · have hres := resolveProjectPath_err musicDir cn h
        simp only [renameProject, hn, if_false, hres]
        exact ⟨Or.inr (by trivial), by trivial, opsWithinRoot_mkdir_self musicDir⟩
      · have hres := resolveProjectPath_err musicDir (toSafeName (bn.getD "")) h
        rcases hc : resolveProjectPath musicDir cn with e | cp
        · simp only [renameProject, hn, if_false, hc]
          exact ⟨Or.inr (by trivial), by trivial, opsWithinRoot_mkdir_self musicDir⟩
        · simp only [renameProject, hn, if_false, hc, hres]
          exact ⟨Or.inr (by trivial), by trivial, opsWithinRoot_mkdir_self musicDir⟩
  · intro pn fs h
    have hres := resolveProjectPath_err musicDir pn h
    simp only [deleteProject, hres]
    exact ⟨by trivial, by trivial, opsWithinRoot_mkdir_self musicDir⟩
  · intro pn cf bn fs h
    by_cases hn : toSafeFileName (bn.getD "") = ""
    · simp only [renameDemo, hn, if_pos]
      exact ⟨Or.inl (by trivial), by trivial⟩
    · rcases h with h | h
      · have hres := resolveProjectPath_err musicDir pn h
        simp only [renameDemo, hn, if_false, hres]
        exact ⟨Or.inr (by trivial), by trivial⟩
      · rcases hc : resolveProjectPath musicDir pn with e | pp
        · simp only [renameDemo, hn, if_false, hc]
          exact ⟨Or.inr (by trivial), by trivial⟩
        · obtain ⟨hpp, _⟩ := resolveProjectPath_ok musicDir pn pp hc
          subst hpp
          have hand : (inDirStrict (jsResolve2 musicDir pn)
              (jsResolve2 (jsResolve2 musicDir pn) cf) &&
            inDirStrict (jsResolve2 musicDir pn)
              (jsResolve2 (jsResolve2 musicDir pn) (demoNextName (bn.getD "")))) = false := by
            rcases h with h | h <;> simp [h]
          simp only [renameDemo, hn, if_false, hc]
          rw [if_pos (by simp [hand])]
          exact ⟨Or.inl (by trivial), by trivial⟩
  · intro pn fn fs h
    rcases h with h | h
    · have hres := resolveProjectPath_err musicDir pn h
      simp only [deleteDemo, hres]
      exact ⟨Or.inr (by trivial), by trivial⟩
    · rcases hc : resolveProjectPath musicDir pn with e | pp
      · simp only [deleteDemo, hc]
        exact ⟨Or.inr (by trivial), by trivial⟩
      · obtain ⟨hpp, _⟩ := resolveProjectPath_ok musicDir pn pp hc
        subst hpp
        simp only [deleteDemo, hc]
        rw [if_pos (by simp [h])]
        exact ⟨Or.inl (by trivial), by trivial⟩

theorem c3_witness :
    ((streamFile wroot ".." "x" none wfs).1.status = 400 ∧
      (streamFile wroot ".." "x" none wfs).2 = []) ∧
    ((createProject wroot (some "..") none wfs).1.status = 500 ∧
      (createProject wroot (some "..") none wfs).2.2 = [FsOp.mkdirOp wroot]) ∧
    ((renameProject wroot "proj" (some "..") wfs).1.status = 500 ∧
      (renameProject wroot "proj" (some "..") wfs).2.2 = [FsOp.mkdirOp wroot]) ∧
    ((deleteProject wroot ".." wfs).1.status = 500 ∧
      (deleteProject wroot ".." wfs).2.2 = [FsOp.mkdirOp wroot]) ∧
    ((renameDemo wroot "proj" "../escape.wav" (some "ok") wfs).1.status = 400 ∧
      (renameDemo wroot "proj" "../escape.wav" (some "ok") wfs).2.2 = []) ∧
    ((deleteDemo wroot "proj" "../a.wav" wfs).1.status = 400 ∧
      (deleteDemo wroot "proj" "../a.wav" wfs).2.2 = []) :=
  ⟨(c3_path_confinement wroot).1 ".." "x" none wfs (by decide),
   (by
      have h := (c3_path_confinement wroot).2.1 (some "..") none wfs (by decide)
      rcases h.1 with hs | hs
      · exact absurd hs (by decide)
      · exact ⟨hs, h.2.1⟩),
   (by
      have h := (c3_path_confinement wroot).2.2.1 "proj" (some "..") wfs (Or.inr (by decide))
      rcases h.1 with hs | hs
      · exact absurd hs (by decide)
      · exact ⟨hs, h.2.1⟩),
   (by
      have h := (c3_path_confinement wroot).2.2.2.1 ".." wfs (by decide)
      exact ⟨h.1, h.2.1⟩),
   (by
      have h := (c3_path_confinement wroot).2.2.2.2.1 "proj" "../escape.wav" (some "ok") wfs
        (Or.inr (Or.inl (by decide)))
      rcases h.1 with hs | hs
      · exact ⟨hs, h.2⟩
      · exact absurd hs (by decide)),
   (by
      have h := (c3_path_confinement wroot).2.2.2.2.2 "proj" "../a.wav" wfs
        (Or.inr (by decide))
      rcases h.1 with hs | hs
      · exact ⟨hs, h.2⟩
      · exact absurd hs (by decide))⟩

/-! ## Claim about demo rename overwriting -/

/-- C9: when the current demo file exists and the sanitized target
name (with .wav forced) resolves inside the project but already names
an existing file, renameDemo succeeds and silently replaces that file;
and no input whatsoever makes renameDemo answer 409 (AlreadyExists). -/
theorem c9_rename_demo_overwrites (musicDir : List String) (pn cf : String)
    (bn : Option String) (fs : Fs) (pp cur next : List String) (c d : List Nat)
    (hname : ¬ toSafeFileName (bn.getD "") = "")
    (hres : resolveProjectPath musicDir pn = .ok pp)
    (hcurdef : cur = jsResolve2 pp cf)
    (hnextdef : next = jsResolve2 pp (demoNextName (bn.getD "")))
    (hin1 : inDirStrict pp cur = true)
    (hin2 : inDirStrict pp next = true)
    (hfc : fsFind fs cur = some (.file c))
    (hfn : fsFind fs next = some (.file d))
    (hprefc : ∀ e ∈ fs, cur.isPrefixOf e.1 = true → e.1 = cur)
    (hnp : ¬ next.isPrefixOf cur = true) :
    (renameDemo musicDir pn cf bn fs).1 = ⟨200, none⟩ ∧
    (renameDemo musicDir pn cf bn fs).2.1 = fsRename fs cur next ∧
    fsFind (fsRename fs cur next) next = some (.file c) ∧
    fsFind (fsRename fs cur next) cur = none ∧
    (∀ (md2 : List String) (pn2 cf2 : String) (bn2 : Option String) (fs2 : Fs),
      ¬ (renameDemo md2 pn2 cf2 bn2 fs2).1.status = 409) := by
  have hex : fsExists fs cur = true := by simp [fsExists, hfc]
  have hgoal : renameDemo musicDir pn cf bn fs =
      (⟨200, none⟩, fsRename fs cur next,
        [.statOp cur, .renameOp cur next]) := by
    simp only [renameDemo, hname, if_false, hres]
    rw [← hcurdef, ← hnextdef]
    rw [if_neg (by simp [hin1, hin2])]
    rw [if_neg (by simp [hex])]
  refine ⟨by rw [hgoal], by rw [hgoal],
    fsRename_find_dst fs cur next c hfc hprefc,
    fsRename_find_src fs cur next hnp, ?_⟩
  intro md2 pn2 cf2 bn2 fs2
  simp only [renameDemo]
  repeat' split
  all_goals simp

def wfs3 : Fs :=
  [(wroot, .dir), (wroot ++ ["proj"], .dir),
    (wroot ++ ["proj", "a.wav"], .file [1, 2]),
    (wroot ++ ["proj", "b.wav"], .file [3])]

theorem c9_witness :
    (renameDemo wroot "proj" "a.wav" (some "b") wfs3).1 = ⟨200, none⟩ ∧
    fsFind (fsRename wfs3 (wroot ++ ["proj", "a.wav"]) (wroot ++ ["proj", "b.wav"]))
      (wroot ++ ["proj", "b.wav"]) = some (.file [1, 2]) ∧
    fsFind (fsRename wfs3 (wroot ++ ["proj", "a.wav"]) (wroot ++ ["proj", "b.wav"]))
      (wroot ++ ["proj", "a.wav"]) = none :=
  (fun h => ⟨h.1, h.2.2.1, h.2.2.2.1⟩)
    (c9_rename_demo_overwrites wroot "proj" "a.wav" (some "b") wfs3
      (wroot ++ ["proj"]) (wroot ++ ["proj", "a.wav"]) (wroot ++ ["proj", "b.wav"])
      [1, 2] [3]
      (by decide) (by rfl) (by rfl) (by rfl) (by decide) (by decide)
      (by decide) (by decide) (by decide) (by decide))

/-! ## Claim about project deletion -/

/-- C5: deleting an existing project that still contains a file whose
name ends in .wav (case-insensitively) fails 400 and leaves the
filesystem unchanged; with no such file the directory is removed
recursively; a missing project answers 404. -/
theorem c5_delete_project (musicDir : List String) (name : String) (fs : Fs)
    (pp : List String)
    (hroot : fsIsDir fs musicDir = true)
    (hres : resolveProjectPath musicDir name = .ok pp) :
    ((∃ n content, (n, FsNode.file content) ∈ fsChildren fs pp ∧ endsWithWav n = true) →
      fsIsDir fs pp = true →
      (deleteProject musicDir name fs).1 =
        ⟨400, some "Project has demo files and cannot be deleted."⟩ ∧
      (deleteProject musicDir name fs).2.1 = fs) ∧
    (fsIsDir fs pp = true →
      (∀ n content, (n, FsNode.file content) ∈ fsChildren fs pp → endsWithWav n = false) →
      (deleteProject musicDir name fs).1 = ⟨200, none⟩ ∧
      (deleteProject musicDir name fs).2.1 = fsRemoveTree fs pp ∧
      fsFind (fsRemoveTree fs pp) pp = none ∧
      (∀ q, ¬ pp.isPrefixOf q = true → fsFind (fsRemoveTree fs pp) q = fsFind fs q)) ∧
    (fsExists fs pp = false →
      (deleteProject musicDir name fs).1 = ⟨404, some "Project not found."⟩ ∧
      (deleteProject musicDir name fs).2.1 = fs) := by
  have hens : ensureMusicDir musicDir fs = fs := by
    simp [ensureMusicDir, hroot]
  refine ⟨?_, ?_, ?_⟩
  · rintro ⟨n, content, hmem, hwav⟩ hdir
    have hfd : fsFind fs pp = some FsNode.dir := of_decide_eq_true hdir
    have hex : fsExists fs pp = true := by simp [fsExists, hfd]
    have hany : (fsChildren fs pp).any (fun e => isFileNode e.2 && endsWithWav e.1) = true := by
      rw [List.any_eq_true]
      exact ⟨(n, FsNode.file content), hmem, by simp [isFileNode, hwav]⟩
    have hgoal : deleteProject musicDir name fs =
        (⟨400, some "Project has demo files and cannot be deleted."⟩, fs,
          [FsOp.mkdirOp musicDir] ++ [.statOp pp, .readdirOp pp]) := by
      simp only [deleteProject, hens, hres, hex, not_true_eq_false, if_false,
        fsReaddir, hdir, if_true, hany]
    exact ⟨by rw [hgoal], by rw [hgoal]⟩
  · intro hdir hno
    have hfd : fsFind fs pp = some FsNode.dir := of_decide_eq_true hdir
    have hex : fsExists fs pp = true := by simp [fsExists, hfd]
    have hany : (fsChildren fs pp).any (fun e => isFileNode e.2 && endsWithWav e.1) = false := by
      rw [Bool.eq_false_iff]
      rw [Ne, List.any_eq_true]
      rintro ⟨⟨en, node⟩, hmem, hcond⟩
      cases node with
      | dir => simp [isFileNode] at hcond
      | file c =>
        rw [Bool.and_eq_true] at hcond
        have := hno en c hmem
        rw [this] at hcond
        exact Bool.false_ne_true hcond.2
    have hgoal : deleteProject musicDir name fs =
        (⟨200, none⟩, fsRemoveTree fs pp,
          [FsOp.mkdirOp musicDir] ++ [.statOp pp, .readdirOp pp, .rmOp pp]) := by
      simp only [deleteProject, hens, hres, hex, not_true_eq_false, if_false,
        fsReaddir, hdir, if_true, hany, Bool.false_eq_true]
    refine ⟨by rw [hgoal], by rw [hgoal], ?_, ?_⟩
    · exact fsFind_filter_drop fs _ pp (fun n => by simp [isPrefixOf_self])
    · intro q hq
      exact fsFind_filter_keep fs _ q (fun n => by simp [hq])
  · intro hex
    have hgoal : deleteProject musicDir name fs =
        (⟨404, some "Project not found."⟩, fs,
          [FsOp.mkdirOp musicDir] ++ [.statOp pp]) := by
      simp only [deleteProject, hens, hres, hex, Bool.false_eq_true, not_false_iff, if_true]
    exact ⟨by rw [hgoal], by rw [hgoal]⟩

def wfs2 : Fs :=
  [(wroot, .dir), (wroot ++ ["p2"], .dir), (wroot ++ ["p2", "notes.txt"], .file [1])]

theorem c5_witness :
    ((deleteProject wroot "proj" wfs).1 =
        ⟨400, some "Project has demo files and cannot be deleted."⟩ ∧
      (deleteProject wroot "proj" wfs).2.1 = wfs) ∧
    ((deleteProject wroot "p2" wfs2).1 = ⟨200, none⟩ ∧
      (deleteProject wroot "p2" wfs2).2.1 = fsRemoveTree wfs2 (wroot ++ ["p2"])) ∧
    ((deleteProject wroot "nope" wfs).1 = ⟨404, some "Project not found."⟩ ∧
      (deleteProject wroot "nope" wfs).2.1 = wfs) :=
  ⟨(c5_delete_project wroot "proj" wfs (wroot ++ ["proj"]) (by decide) (by rfl)).1
      ⟨"a.wav", wbytes, by decide, by decide⟩ (by decide),
   (by
      have h := (c5_delete_project wroot "p2" wfs2 (wroot ++ ["p2"]) (by decide) (by rfl)).2.1
        (by decide)
        (by
          intro n content hmem
          have hc : fsChildren wfs2 (wroot ++ ["p2"]) = [("notes.txt", FsNode.file [1])] := by
            decide
          rw [hc] at hmem
          rcases List.mem_singleton.mp hmem with heq
          have hn : n = "notes.txt" := congrArg Prod.fst heq
          rw [hn]
          decide)
      exact ⟨h.1, h.2.1⟩),
   (c5_delete_project wroot "nope" wfs (wroot ++ ["nope"]) (by decide) (by rfl)).2.2
      (by decide)⟩

/-! ## Sorting lemmas and the listing claim -/

theorem insertSorted_perm (le : α → α → Bool) (a : α) (l : List α) :
    (insertSorted le a l).Perm (a :: l) := by
  induction l with
  | nil => exact List.Perm.refl _
  | cons b bs ih =>
    rw [insertSorted]
    by_cases hab : le a b = true
    · rw [if_pos hab]
    · rw [if_neg hab]
      exact (List.Perm.cons b ih).trans (List.Perm.swap a b bs)

theorem sortByLe_perm (le : α → α → Bool) (l : List α) :
    (sortByLe le l).Perm l := by
  induction l with
  | nil => exact List.Perm.refl _
  | cons a as ih =>
    rw [sortByLe]
    exact (insertSorted_perm le a (sortByLe le as)).trans (List.Perm.cons a ih)

theorem mem_insertSorted (le : α → α → Bool) (a x : α) (l : List α) :
    x ∈ insertSorted le a l ↔ x = a ∨ x ∈ l := by
  rw [(insertSorted_perm le a l).mem_iff]
  simp

theorem pairwise_insertSorted (le : α → α → Bool)
    (htot : ∀ x y, le x y = true ∨ le y x = true)
    (htr : ∀ x y z, le x y = true → le y z = true → le x z = true)
    (a : α) (l : List α) (h : l.Pairwise (fun x y => le x y = true)) :
    (insertSorted le a l).Pairwise (fun x y => le x y = true) := by
  induction l with
  | nil => simp [insertSorted]
  | cons b bs ih =>
    rcases List.pairwise_cons.mp h with ⟨hb, hbs⟩
    rw [insertSorted]
    by_cases hab : le a b = true
    · rw [if_pos hab]
      refine List.pairwise_cons.mpr ⟨?_, h⟩
      intro y hy
      rcases List.mem_cons.mp hy with rfl | hy
      · exact hab
      · exact htr a b y hab (hb y hy)
    · rw [if_neg hab]
      refine List.pairwise_cons.mpr ⟨?_, ih hbs⟩
      intro y hy
      rcases (mem_insertSorted le a y bs).mp hy with rfl | hy
      · rcases htot y b with hyb | hby
        · exact absurd hyb hab
        · exact hby
      · exact hb y hy

theorem pairwise_sortByLe (le : α → α → Bool)
    (htot : ∀ x y, le x y = true ∨ le y x = true)
    (htr : ∀ x y z, le x y = true → le y z = true → le x z = true)
    (l : List α) : (sortByLe le l).Pairwise (fun x y => le x y = true) := by
  induction l with
  | nil => simp [sortByLe]
  | cons a as ih =>
    rw [sortByLe]
    exact pairwise_insertSorted le htot htr a (sortByLe le as) ih

theorem projLe_iff (cmp : String → String → Ordering) (a b : ProjectInfo) :
    projLe cmp a b = true ↔
      (b.latestDemoMs < a.latestDemoMs ∨
        (a.latestDemoMs = b.latestDemoMs ∧ cmp a.name b.name ≠ .gt)) := by
  unfold projLe projCmpVal
  by_cases hne : b.latestDemoMs ≠ a.latestDemoMs
  · rw [if_pos hne]
    constructor
    · intro h
      left
      have := of_decide_eq_true h
      omega
    · intro h
      rcases h with h | ⟨h1, _⟩
      · exact decide_eq_true (by omega)
      · exact absurd h1.symm hne
  · rw [if_neg hne]
    push_neg at hne
    rcases hc : cmp a.name b.name with _ | _ | _
    · simp only [hc]
      constructor
      · intro _
        exact Or.inr ⟨hne.symm, by simp [hc]⟩
      · intro _
        exact decide_eq_true (by omega)
    · simp only [hc]
      constructor
      · intro _
        exact Or.inr ⟨hne.symm, by simp [hc]⟩
      · intro _
        exact decide_eq_true (by omega)
    · simp only [hc]
      constructor
      · intro h
        exact absurd (of_decide_eq_true h) (by omega)
      · intro h
        rcases h with h | ⟨_, h2⟩
        · omega
        · exact absurd rfl h2

/-- C6: the project listing is a permutation of the summarized
directory set, sorted by descending latest-demo time with ties broken
by ascending comparator order on names; a directory whose listing
could not be read is still present, summarized as having no demos
(time 0). -/
theorem c6_project_listing (cmp : String → String → Ordering)
    (htot : ∀ x y, cmp x y ≠ .gt ∨ cmp y x ≠ .gt)
    (htr : ∀ x y z, cmp x y ≠ .gt → cmp y z ≠ .gt → cmp x z ≠ .gt)
    (dirs : List ProjectInput) :
    (getProjects cmp dirs).Pairwise (fun a b => projLe cmp a b = true) ∧
    (getProjects cmp dirs).Perm (dirs.map summarizeProject) ∧
    (∀ a b, projLe cmp a b = true ↔
      (b.latestDemoMs < a.latestDemoMs ∨
        (a.latestDemoMs = b.latestDemoMs ∧ cmp a.name b.name ≠ .gt))) ∧
    (∀ p ∈ dirs, p.listing = none →
      ProjectInfo.mk p.name 0 false ∈ getProjects cmp dirs) := by
  have htot' : ∀ a b : ProjectInfo, projLe cmp a b = true ∨ projLe cmp b a = true := by
    intro a b
    by_cases hne : a.latestDemoMs = b.latestDemoMs
    · rcases htot a.name b.name with h | h
      · exact Or.inl ((projLe_iff cmp a b).mpr (Or.inr ⟨hne, h⟩))
      · exact Or.inr ((projLe_iff cmp b a).mpr (Or.inr ⟨hne.symm, h⟩))
    · by_cases hlt : b.latestDemoMs < a.latestDemoMs
      · exact Or.inl ((projLe_iff cmp a b).mpr (Or.inl hlt))
      · exact Or.inr ((projLe_iff cmp b a).mpr (Or.inl (by omega)))
  have htr' : ∀ a b c : ProjectInfo, projLe cmp a b = true → projLe cmp b c = true →
      projLe cmp a c = true := by
    intro a b c hab hbc
    rcases (projLe_iff cmp a b).mp hab with h1 | ⟨h1, h1n⟩ <;>
      rcases (projLe_iff cmp b c).mp hbc with h2 | ⟨h2, h2n⟩
    · exact (projLe_iff cmp a c).mpr (Or.inl (by omega))
    · exact (projLe_iff cmp a c).mpr (Or.inl (by omega))
    · exact (projLe_iff cmp a c).mpr (Or.inl (by omega))
    · exact (projLe_iff cmp a c).mpr (Or.inr ⟨by omega, htr _ _ _ h1n h2n⟩)
  refine ⟨pairwise_sortByLe _ htot' htr' _, sortByLe_perm _ _, projLe_iff cmp, ?_⟩
  intro p hp hnone
  have hmem : summarizeProject p ∈ dirs.map summarizeProject := List.mem_map_of_mem _ hp
  have hsum : summarizeProject p = ProjectInfo.mk p.name 0 false := by
    simp [summarizeProject, hnone]
  rw [hsum] at hmem
  exact (sortByLe_perm (projLe cmp) (dirs.map summarizeProject)).mem_iff.mpr hmem

def wcmp : String → String → Ordering := fun _ _ => Ordering.eq

def wdirs : List ProjectInput :=
  [⟨"p1", some [⟨"x.wav", true, 5⟩]⟩, ⟨"bad", none⟩]

theorem c6_witness :
    (getProjects wcmp wdirs).Pairwise (fun a b => projLe wcmp a b = true) ∧
    (getProjects wcmp wdirs).Perm (wdirs.map summarizeProject) ∧
    ProjectInfo.mk "bad" 0 false ∈ getProjects wcmp wdirs :=
  (fun h => ⟨h.1, h.2.1, h.2.2.2 ⟨"bad", none⟩ (by decide) rfl⟩)
    (c6_project_listing wcmp
      (fun x y => Or.inl (fun hh => nomatch hh))
      (fun x y z h1 h2 hh => nomatch hh)
      wdirs)

/-! ## Lemmas about splitting, trimming and digit parsing (for C7) -/

theorem splitOnChar_ne_nil (sep : Char) (cs : Chars) : splitOnChar sep cs ≠ [] := by
  induction cs with
  | nil => simp [splitOnChar]
  | cons a t ih =>
    rw [splitOnChar]
    rcases hsp : splitOnChar sep t with _ | ⟨p, ps⟩
    · exact absurd hsp ih
    · by_cases ha : a = sep
      · simp [ha]
      · simp [ha]

theorem mem_splitOnChar (sep : Char) (cs : Chars) (c : Char) (h : c ∈ cs) :
    c = sep ∨ ∃ p ∈ splitOnChar sep cs, c ∈ p := by
  induction cs with
  | nil => cases h
  | cons a t ih =>
    rcases hsp : splitOnChar sep t with _ | ⟨p, ps⟩
    · exact absurd hsp (splitOnChar_ne_nil sep t)
    · rw [splitOnChar, hsp]
      show _ ∨ ∃ p1 ∈ (if a = sep then [] :: p :: ps else (a :: p) :: ps), c ∈ p1
      by_cases ha : a = sep
      · rw [if_pos ha]
        rcases List.mem_cons.mp h with rfl | hct
        · exact Or.inl ha
        · rcases ih hct with hc | ⟨q, hq, hcq⟩
          · exact Or.inl hc
          · rw [hsp] at hq
            exact Or.inr ⟨q, List.mem_cons_of_mem _ hq, hcq⟩
      · rw [if_neg ha]
        rcases List.mem_cons.mp h with rfl | hct
        · exact Or.inr ⟨c :: p, List.mem_cons_self _ _, List.mem_cons_self _ _⟩
        · rcases ih hct with hc | ⟨q, hq, hcq⟩
          · exact Or.inl hc
          · rw [hsp] at hq
            rcases List.mem_cons.mp hq with rfl | hq2
            · exact Or.inr ⟨a :: q, List.mem_cons_self _ _, List.mem_cons_of_mem _ hcq⟩
            · exact Or.inr ⟨q, List.mem_cons_of_mem _ hq2, hcq⟩

theorem splitOnChar_not_mem (sep : Char) (cs : Chars) (h : sep ∉ cs) :
    splitOnChar sep cs = [cs] := by
  induction cs with
  | nil => rfl
  | cons a t ih =>
    have ha : ¬ a = sep := fun heq => h (heq ▸ List.mem_cons_self a t)
    rw [splitOnChar, ih (fun hm => h (List.mem_cons_of_mem a hm))]
    simp [ha]

theorem dropWhile_eq_self_of_head (p : Char → Bool) (cs : Chars)
    (h : ∀ c ∈ cs, p c = false) : cs.dropWhile p = cs := by
  cases cs with
  | nil => rfl
  | cons a t =>
    rw [List.dropWhile_cons, if_neg]
    simp [h a (List.mem_cons_self a t)]

theorem jsTrim_eq_self (cs : Chars) (h : ∀ c ∈ cs, c.isWhitespace = false) :
    jsTrim cs = cs := by
  unfold jsTrim
  rw [dropWhile_eq_self_of_head _ cs h,
    dropWhile_eq_self_of_head _ cs.reverse (fun c hc => h c (List.mem_reverse.mp hc)),
    List.reverse_reverse]

theorem digit_not_ws (c : Char) (h : c.isDigit = true) : c.isWhitespace = false := by
  cases hw : c.isWhitespace
  · rfl
  · exfalso
    simp only [Char.isWhitespace, Bool.or_eq_true, decide_eq_true_eq] at hw
    rcases hw with ((rfl | rfl) | rfl) | rfl <;> exact absurd h (by decide)

theorem jsNumber_digits (cs : Chars) (h1 : cs ≠ []) (h2 : cs.all Char.isDigit = true) :
    jsNumber cs = some ((decValueNat cs : Nat) : Int) := by
  have hall : ∀ c ∈ cs, c.isDigit = true := by
    intro c hc
    exact List.all_eq_true.mp h2 c hc
  have htrim : jsTrim cs = cs :=
    jsTrim_eq_self cs (fun c hc => digit_not_ws c (hall c hc))
  simp [jsNumber, htrim, h1, h2]

theorem isPrefixOf_head_mem (c : Char) (p cs : Chars)
    (h : (c :: p).isPrefixOf cs = true) : c ∈ cs := by
  cases cs with
  | nil => cases h
  | cons b bs =>
    simp only [List.isPrefixOf, Bool.and_eq_true, beq_iff_eq] at h
    rw [h.1]
    exact List.mem_cons_self b bs

theorem string_mk_toList (s : String) : String.mk s.toList = s := by
  rcases s with ⟨data⟩
  rfl

/-! ## Claim about the network origin classifier -/

theorem specValidIPv4_parts (s : String) (h : specValidIPv4 s = true) :
    ∃ a b c d, splitOnChar '.' s.toList = [a, b, c, d] ∧
      (a ≠ [] ∧ a.all Char.isDigit = true ∧ decValueNat a ≤ 255) ∧
      (b ≠ [] ∧ b.all Char.isDigit = true ∧ decValueNat b ≤ 255) ∧
      (c ≠ [] ∧ c.all Char.isDigit = true ∧ decValueNat c ≤ 255) ∧
      (d ≠ [] ∧ d.all Char.isDigit = true ∧ decValueNat d ≤ 255) := by
  unfold specValidIPv4 at h
  rcases hsp : splitOnChar '.' s.toList with _ | ⟨a, _ | ⟨b, _ | ⟨c, _ | ⟨d, _ | ⟨e, t⟩⟩⟩⟩⟩ <;>
    rw [hsp] at h
  · cases h
  · cases h
  · cases h
  · cases h
  · simp only [List.all_cons, List.all_nil, Bool.and_true, Bool.and_eq_true,
      decide_eq_true_eq] at h
    exact ⟨a, b, c, d, rfl, h.1, h.2.1, h.2.2.1, h.2.2.2⟩
  · cases h

theorem isLocalNetworkIp_iff_on_quad (s : String) (hvalid0 : specValidIPv4 s = true) :
    isLocalNetworkIp s = true ↔ specInLocalRanges s = true := by
  obtain ⟨a, b, c, d, hsp, ha, hb, hc, hd⟩ := specValidIPv4_parts s hvalid0
  have hnil : s.toList ≠ [] := by
    intro h0
    rw [h0] at hsp
    simp [splitOnChar] at hsp
  have hnocolon : ':' ∉ s.toList := by
    intro hmem
    rcases mem_splitOnChar '.' s.toList ':' hmem with heq | ⟨p, hp, hcp⟩
    · exact absurd heq (by decide)
    · rw [hsp] at hp
      simp only [List.mem_cons, List.not_mem_nil, or_false] at hp
      rcases hp with rfl | rfl | rfl | rfl
      · exact absurd (List.all_eq_true.mp ha.2.1 ':' hcp) (by decide)
      · exact absurd (List.all_eq_true.mp hb.2.1 ':' hcp) (by decide)
      · exact absurd (List.all_eq_true.mp hc.2.1 ':' hcp) (by decide)
      · exact absurd (List.all_eq_true.mp hd.2.1 ':' hcp) (by decide)
  have hsne : ¬ s = "" := by
    intro h0
    rw [h0] at hnil
    exact hnil rfl
  have hnopfx : ("::ffff:".toList.isPrefixOf s.toList) = false := by
    cases hpf : "::ffff:".toList.isPrefixOf s.toList
    · rfl
    · exact absurd (isPrefixOf_head_mem ':' _ s.toList hpf) hnocolon
  have hne1 : ¬ s.toList = "::1".toList := by
    intro heq
    exact hnocolon (by rw [heq]; decide)
  by_cases hs127 : s = "127.0.0.1"
  · rw [hs127]
    decide
  · have hne2 : ¬ s.toList = "127.0.0.1".toList := by
      intro heq
      exact hs127 (by rw [← string_mk_toList s, heq]; rfl)
    have hcontains : s.toList.contains ':' = false := by
      cases hct : s.toList.contains ':'
      · rfl
      · exact absurd (List.elem_iff.mp hct) hnocolon
    have hlocal : isLocalNetworkIp s = isPrivateIpv4 s := by
      unfold isLocalNetworkIp
      rw [if_neg hsne]
      simp only [hnopfx, Bool.false_eq_true, if_false]
      rw [if_neg (by rintro (h | h); exact hne1 h; exact hne2 h)]
      rw [hcontains]
      simp only [Bool.false_eq_true, if_false]
      rw [string_mk_toList]
    have hpriv : isPrivateIpv4 s = true ↔
        (decValueNat a = 10 ∨ (decValueNat a = 172 ∧ 16 ≤ decValueNat b ∧ decValueNat b ≤ 31) ∨
          (decValueNat a = 192 ∧ decValueNat b = 168)) := by
      unfold isPrivateIpv4
      rw [hsp]
      simp only [List.map_cons, List.map_nil]
      rw [jsNumber_digits a ha.1 ha.2.1, jsNumber_digits b hb.1 hb.2.1,
        jsNumber_digits c hc.1 hc.2.1, jsNumber_digits d hd.1 hd.2.1]
      rw [if_neg ?hguard]
      case hguard =>
        rintro (hlen | hany)
        · exact hlen rfl
        · simp only [List.any_cons, List.any_nil, Bool.or_false, Bool.or_eq_true,
            decide_eq_true_eq] at hany
          rcases hany with ((h1 | h1) | h1) | h1 <;> omega
      dsimp only
      constructor
      · intro h
        split_ifs at h with h10 h172
        · left
          omega
        · right
          left
          omega
        · right
          right
          have := of_decide_eq_true h
          omega
      · intro h
        rcases h with h | h | h
        · rw [if_pos (by omega)]
        · rw [if_neg (by omega), if_pos (by omega)]
        · rw [if_neg (by omega), if_neg (by omega)]
          exact decide_eq_true (by omega)
    have h6 : specValidIPv6 s = false := by
      unfold specValidIPv6
      rw [splitOnChar_not_mem ':' s.toList hnocolon]
      simp only [specValidIPv6Parts, hnil]
      simp [hnil]
      intro h0
      exact absurd h0 hnil
    have hloop : specIsLoopback s = false := by
      unfold specIsLoopback
      have e1 : ¬ s = "127.0.0.1" := hs127
      have e2 : ¬ s = "::1" := by
        intro heq
        exact hnocolon (by rw [heq]; decide)
      have e3 : ¬ s = "::ffff:127.0.0.1" := by
        intro heq
        exact hnocolon (by rw [heq]; decide)
      simp [e1, e2, e3]
    have hrange : specInLocalRanges s = true ↔
        (decValueNat a = 10 ∨ (decValueNat a = 172 ∧ 16 ≤ decValueNat b ∧ decValueNat b ≤ 31) ∨
          (decValueNat a = 192 ∧ decValueNat b = 168)) := by
      unfold specInLocalRanges
      rw [hloop, h6, hvalid0, hsp]
      simp [specRfc1918]
    rw [hlocal]
    exact hpriv.trans hrange.symm

/-- C7 counterexample: the string "10..." is not a well-formed address
and lies in none of the listed ranges, yet the classifier accepts it
(the JavaScript Number coercion turns its empty components into 0),
so the classifier is not the claimed characteristic function and does
not return false on every malformed input. -/
theorem c7_counterexample :
    isLocalNetworkIp "10..." = true ∧ specWellFormedIp "10..." = false ∧
    specInLocalRanges "10..." = false := by decide

/-- C7 amended: the classifier denies the empty string, and on every
well-formed dotted-quad IPv4 address it accepts exactly the RFC1918
ranges and 127.0.0.1; but on malformed strings it can return true
(see the counterexample), and uppercase IPv6 unique-local forms are
rejected because only the lowercase fc/fd prefixes are tested. -/
theorem c7_classifier_on_wellformed :
    isLocalNetworkIp "" = false ∧
    ∀ s : String, specValidIPv4 s = true →
      (isLocalNetworkIp s = true ↔ specInLocalRanges s = true) :=
  ⟨rfl, isLocalNetworkIp_iff_on_quad⟩

theorem c7_witness :
    specValidIPv4 "10.1.2.3" = true ∧
    (isLocalNetworkIp "10.1.2.3" = true ↔ specInLocalRanges "10.1.2.3" = true) :=
  ⟨by decide, c7_classifier_on_wellformed.2 "10.1.2.3" (by decide)⟩

end MusicSite
